import Mathlib

/-!
# Verification of the cv-application form core

A shallow embedding of the cv-application repository's form core:

* the field-schema registry (`src/data/formData.ts`),
* the schema-derived draft state (`src/utils/arrays.ts`
  `createStateFromKeys`, and the `FormSection` component's
  `draftState` initializer),
* field updates (`src/utils/state.ts` `createFieldUpdater`, and
  `FormSection`'s `handleInputChange`),
* submission and the top-level CV collection (`App`'s `cvData` state and
  its `addGeneralInformation` / `addPracticalExperience` /
  `addEducationalExperience` handlers),
* text formatting (`camelToKebab`) and the side-panel toggle.

JavaScript records (object literals keyed by field keys) are modelled as
ordered association lists from `String` keys to `Option String` values,
where `none` models the JS `null` ("unset") and `some s` a string value;
JS objects preserve insertion order, which the list order mirrors.
-/

set_option autoImplicit false

namespace CVApp

/-- A field value: `none` models the JS `null` ("unset"), `some s` a string
(possibly empty, an empty string being a user-cleared field). -/
abbrev FieldValue := Option String

/-- A draft or submitted record: a JS object literal, modelled as an ordered
association list from field keys to field values. -/
abbrev Rec := List (String × FieldValue)

/-- `Object.keys`: the keys of a record in insertion order. -/
def objectKeys (r : Rec) : List String :=
  r.map Prod.fst

/-- JS property access `r[k]`: the value at the first entry with key `k`,
or `none` when the key is absent (JS `undefined`). -/
def getProp : Rec → String → Option FieldValue
  | [], _ => none
  | p :: rest, k => if p.1 = k then some p.2 else getProp rest k

/-- Whether the record has an entry with key `k` (`k in r`). -/
def containsKey (r : Rec) (k : String) : Bool :=
  r.any (fun p => p.1 == k)

/-- The JS object-spread update `{ ...r, [k]: v }` (equivalently, the
property assignment `r[k] = v` on a copy): if `k` is already a key of `r`
its entry is overwritten in place (keeping its position), otherwise the
entry `(k, v)` is appended at the end. -/
def spreadSet (r : Rec) (k : String) (v : FieldValue) : Rec :=
  if containsKey r k then r.map (fun p => if p.1 = k then (k, v) else p)
  else r ++ [(k, v)]

/-- JS `Object.fromEntries`: builds an object by inserting the entries in
order (later entries overwrite earlier values for the same key). -/
def fromEntries (entries : List (String × FieldValue)) : Rec :=
  entries.foldl (fun acc p => spreadSet acc p.1 p.2) []

/-- `createStateFromKeys` (`src/utils/arrays.ts`):
`Object.fromEntries(keys.map((key) => [key, null]))`. -/
def createStateFromKeys (keys : List String) : Rec :=
  fromEntries (keys.map (fun key => (key, none)))

/-- One field descriptor of `src/data/formData.ts`: `key`, `label`, an
optional `placeholder`, and an optional input `type`. -/
structure FieldDescriptor where
  key : String
  label : String
  placeholder : Option String := none
  type : Option String := none
deriving DecidableEq

/-- `GENERAL_INFORMATION` (`src/data/formData.ts`). -/
def GENERAL_INFORMATION : List FieldDescriptor :=
  [ { key := "name", label := "Name", placeholder := some "Enter Your Name" },
    { key := "email", label := "Email", placeholder := some "Enter Your E-Mail" },
    { key := "phoneNumber", label := "Phone Number", type := some "tel",
      placeholder := some "Enter Your Phone Number" } ]

/-- `EDUCATIONAL_EXPERIENCE` (`src/data/formData.ts`). -/
def EDUCATIONAL_EXPERIENCE : List FieldDescriptor :=
  [ { key := "schoolName", label := "School Name", placeholder := some "Enter School Name" },
    { key := "fieldOfStudy", label := "Field of Study", placeholder := some "Enter Field of Study" },
    { key := "dateStarted", label := "Start Date", type := some "date" },
    { key := "dateEnded", label := "End Date", type := some "date" } ]

/-- `PRACTICAL_EXPERIENCE` (`src/data/formData.ts`). -/
def PRACTICAL_EXPERIENCE : List FieldDescriptor :=
  [ { key := "companyName", label := "Company Name", placeholder := some "Enter Company Name" },
    { key := "positionTitle", label := "Title", placeholder := some "Enter your title" },
    { key := "responsibilities", label := "Responsibilities", type := some "textarea",
      placeholder := some "List Responsibilites" },
    { key := "dateStarted", label := "Start Date", type := some "date" },
    { key := "dateEnded", label := "End Date", type := some "date" } ]

/-- The `FormSection` component's `draftState` initializer:
`fields.reduce((acc, field) => { acc[field.key] = null; return acc; }, {})`. -/
def initialDraftState (fields : List FieldDescriptor) : Rec :=
  fields.foldl (fun acc field => spreadSet acc field.key none) []

/-- The state transition performed by `updateField` in `createFieldUpdater`
(`src/utils/state.ts`): `setter((prev) => ({ ...prev, [key]: value }))`.
The TypeScript signature types `key : keyof T`, so a well-typed caller can
only pass a key of the record; that static constraint appears as a
hypothesis of the theorems below, not as a runtime check — the compiled
JavaScript performs none. -/
def updateField (prev : Rec) (key : String) (value : String) : Rec :=
  spreadSet prev key (some value)

/-- `FormSection`'s `handleInputChange`: reads `name` and `value` from the
input event's target and performs
`setDraftState((prev) => ({ ...prev, [name]: value }))`. -/
def handleInputChange (prev : Rec) (name : String) (value : String) : Rec :=
  spreadSet prev name (some value)

/-- The `name` attributes `FormSection` wires onto its rendered inputs:
every input (and textarea) is rendered with `name={field.key}`, so input
events can only carry a schema key as `name`. -/
def renderedInputNames (fields : List FieldDescriptor) : List String :=
  fields.map FieldDescriptor.key

/-- The value `FormSection` displays in an input:
`value={draftState[field.key] ?? ''}` — `null` (unset) and `undefined`
(absent key) both display as the empty string. -/
def displayedValue (draftState : Rec) (key : String) : String :=
  match getProp draftState key with
  | some (some s) => s
  | some none => ""
  | none => ""

/-- The top-level `cvData` state of `App` (`get-root.ts`): at most one
general-information record and ordered lists of practical / educational
experience records. -/
structure CVData where
  generalInformation : Option Rec
  practicalExperience : List Rec
  educationalExperience : List Rec
deriving DecidableEq

/-- `App`'s initial `cvData` state:
`{ generalInformation: null, practicalExperience: [], educationalExperience: [] }`. -/
def initialCvData : CVData :=
  { generalInformation := none, practicalExperience := [], educationalExperience := [] }

/-- `addGeneralInformation` (`App`):
`setCvData((prev) => ({ ...prev, generalInformation: fieldData }))`. -/
def addGeneralInformation (fieldData : Rec) (prev : CVData) : CVData :=
  { prev with generalInformation := some fieldData }

/-- `addPracticalExperience` (`App`): `setCvData((prev) => ({ ...prev,
practicalExperience: [...prev.practicalExperience, fieldData] }))`. -/
def addPracticalExperience (fieldData : Rec) (prev : CVData) : CVData :=
  { prev with practicalExperience := prev.practicalExperience ++ [fieldData] }

/-- `addEducationalExperience` (`App`): `setCvData((prev) => ({ ...prev,
educationalExperience: [...prev.educationalExperience, fieldData] }))`. -/
def addEducationalExperience (fieldData : Rec) (prev : CVData) : CVData :=
  { prev with educationalExperience := prev.educationalExperience ++ [fieldData] }

/-- `FormSection`'s `handleButtonClick`: calls `handleAddToCV(fieldData)`
with the current draft state — the draft is forwarded unchanged (no copy
and no null-to-empty-string substitution on the submission path). -/
def handleButtonClick (handleAddToCV : Rec → CVData → CVData) (fieldData : Rec) : CVData → CVData :=
  handleAddToCV fieldData

/-- The spec's `toSubmittedRecord`, stated from the spec's words (§4.2) for
comparison with the code's submission path: "copies every key,
substituting unset with empty string". -/
def toSubmittedRecordSpec (record : Rec) : Rec :=
  record.map (fun p => (p.1, some (p.2.getD "")))

/-- One submission event of the application: the three `handleAddToCV`
callbacks `App` passes to the three `FormSection`s. -/
inductive CVOp where
  | addGeneral (fieldData : Rec)
  | addPractical (fieldData : Rec)
  | addEducational (fieldData : Rec)

/-- Apply one submission event to the `cvData` state. -/
def applyOp (op : CVOp) (s : CVData) : CVData :=
  match op with
  | CVOp.addGeneral fieldData => addGeneralInformation fieldData s
  | CVOp.addPractical fieldData => addPracticalExperience fieldData s
  | CVOp.addEducational fieldData => addEducationalExperience fieldData s

/-- Apply a sequence of submission events in dispatch order. -/
def runOps (ops : List CVOp) (s : CVData) : CVData :=
  ops.foldl (fun s op => applyOp op s) s

/-- The registry's error for an unregistered section name (spec §7). -/
inductive RegistryError where
  | unknownSection
deriving DecidableEq

/-- Modelled from the spec: the source registers its section schemas as the
static module constants `GENERAL_INFORMATION`, `EDUCATIONAL_EXPERIENCE`
and `PRACTICAL_EXPERIENCE` (`src/data/formData.ts`) accessed by direct
import; no runtime `getSchema` function exists in the source. Following
§4.1, lookup by section name returns the registered schema and fails with
`UnknownSectionError` for any other name. -/
def getSchema (sectionName : String) : Except RegistryError (List FieldDescriptor) :=
  if sectionName = "general" then Except.ok GENERAL_INFORMATION
  else if sectionName = "education" then Except.ok EDUCATIONAL_EXPERIENCE
  else if sectionName = "experience" then Except.ok PRACTICAL_EXPERIENCE
  else Except.error RegistryError.unknownSection

/-- The toggle's click handler (`App`): `() => setIsActive(prev => !prev)`. -/
def toggleOnClick (prev : Bool) : Bool :=
  !prev

/-- The side panel's class list (`Aside`, part_002):
`className={clsx(!isOpen && 'closed')}` — `clsx` of `false` contributes no
class, so the `closed` class is present exactly when the panel is not open. -/
def asideClassName (isOpen : Bool) : String :=
  if !isOpen then "closed" else ""

/-- Characters are modelled by their Unicode code points (`Nat`); on the
ASCII range used by the field keys, JS UTF-16 code units and code points
coincide. -/
abbrev JSString := List Nat

/-- Code points of a Lean string literal, to write concrete JS strings. -/
def jsString (s : String) : JSString :=
  s.toList.map Char.toNat

/-- The regex character class `[a-z0-9]`. -/
def isLowerOrDigit (c : Nat) : Bool :=
  (97 ≤ c && c ≤ 122) || (48 ≤ c && c ≤ 57)

/-- The regex character class `[A-Z]`. -/
def isUpperAZ (c : Nat) : Bool :=
  65 ≤ c && c ≤ 90

/-- `String.prototype.toLowerCase` on one character, on the ASCII range:
`A`–`Z` (65–90) map to `a`–`z` (97–122), everything else is unchanged. -/
def toLowerCaseChar (c : Nat) : Nat :=
  if isUpperAZ c then c + 32 else c

/-- The global regex replace `str.replace(/([a-z0-9])([A-Z])/g, '$1-$2')`:
scanning left to right, each non-overlapping match of a lowercase-or-digit
character immediately followed by an uppercase character is replaced by
the same pair with a hyphen (code point 45) inserted between them, and
scanning resumes after the match. -/
def kebabReplace : JSString → JSString
  | [] => []
  | [c] => [c]
  | c1 :: c2 :: rest =>
    if isLowerOrDigit c1 && isUpperAZ c2 then c1 :: 45 :: c2 :: kebabReplace rest
    else c1 :: kebabReplace (c2 :: rest)

/-- `camelToKebab` (`src/library/utilities/text-formatting.ts`):
`str.replace(/([a-z0-9])([A-Z])/g, '$1-$2').toLowerCase()`. -/
def camelToKebab (str : JSString) : JSString :=
  (kebabReplace str).map toLowerCaseChar

/-! ### Lemmas about records and `spreadSet` -/

theorem containsKey_iff (r : Rec) (k : String) :
    containsKey r k = true ↔ k ∈ objectKeys r := by
  simp [containsKey, objectKeys, List.any_eq_true, List.mem_map, beq_iff_eq]

theorem objectKeys_map_replace (r : Rec) (k : String) (v : FieldValue) :
    objectKeys (r.map (fun p => if p.1 = k then (k, v) else p)) = objectKeys r := by
  induction r with
  | nil => rfl
  | cons p rest ih =>
    simp only [objectKeys, List.map_cons] at *
    by_cases h : p.1 = k
    · simp [h, ih]
    · simp [h, ih]

theorem objectKeys_spreadSet_of_mem (r : Rec) (k : String) (v : FieldValue)
    (h : containsKey r k = true) :
    objectKeys (spreadSet r k v) = objectKeys r := by
  simp [spreadSet, h, objectKeys_map_replace]

theorem objectKeys_spreadSet_of_not_mem (r : Rec) (k : String) (v : FieldValue)
    (h : containsKey r k = false) :
    objectKeys (spreadSet r k v) = objectKeys r ++ [k] := by
  simp [spreadSet, h, objectKeys]

theorem mem_objectKeys_spreadSet (r : Rec) (k k' : String) (v : FieldValue) :
    k' ∈ objectKeys (spreadSet r k v) ↔ k' ∈ objectKeys r ∨ k' = k := by
  by_cases h : containsKey r k = true
  · rw [objectKeys_spreadSet_of_mem r k v h]
    constructor
    · exact Or.inl
    · rintro (hm | rfl)
      · exact hm
      · exact (containsKey_iff r k').mp h
  · rw [objectKeys_spreadSet_of_not_mem r k v (by simpa using h)]
    simp

theorem getProp_map_replace_self (r : Rec) (k : String) (v : FieldValue)
    (h : containsKey r k = true) :
    getProp (r.map (fun p => if p.1 = k then (k, v) else p)) k = some v := by
  induction r with
  | nil => simp [containsKey] at h
  | cons p rest ih =>
    by_cases hp : p.1 = k
    · simp [getProp, hp]
    · have h' : containsKey rest k = true := by
        simp only [containsKey, List.any_cons, Bool.or_eq_true, beq_iff_eq] at h
        rcases h with h1 | h2
        · exact absurd h1 hp
        · simpa [containsKey] using h2
      simp [getProp, hp, ih h']

theorem getProp_map_replace_ne (r : Rec) (k k' : String) (v : FieldValue) (h : k' ≠ k) :
    getProp (r.map (fun p => if p.1 = k then (k, v) else p)) k' = getProp r k' := by
  induction r with
  | nil => rfl
  | cons p rest ih =>
    by_cases hp : p.1 = k
    · simp [getProp, hp, Ne.symm h, ih]
    · by_cases hk' : p.1 = k'
      · simp [getProp, hp, hk', h]
      · simp [getProp, hp, hk', ih]

theorem getProp_append_of_not_mem (r l : Rec) (k : String)
    (h : containsKey r k = false) :
    getProp (r ++ l) k = getProp l k := by
  induction r with
  | nil => rfl
  | cons p rest ih =>
    simp only [containsKey, List.any_cons, Bool.or_eq_false_iff, beq_eq_false_iff_ne] at h
    simp [getProp, h.1, ih (by simpa [containsKey] using h.2)]

theorem getProp_append_single_ne (r : Rec) (k k' : String) (v : FieldValue) (h : k' ≠ k) :
    getProp (r ++ [(k, v)]) k' = getProp r k' := by
  induction r with
  | nil => simp [getProp, Ne.symm h]
  | cons p rest ih =>
    by_cases hp : p.1 = k'
    · simp [getProp, hp]
    · simp [getProp, hp, ih]

theorem getProp_spreadSet_self (r : Rec) (k : String) (v : FieldValue) :
    getProp (spreadSet r k v) k = some v := by
  by_cases h : containsKey r k = true
  · simp [spreadSet, h, getProp_map_replace_self r k v h]
  · have h' : containsKey r k = false := by simpa using h
    rw [spreadSet, if_neg (by simp [h'])]
    rw [getProp_append_of_not_mem r _ k h']
    simp [getProp]

theorem getProp_spreadSet_ne (r : Rec) (k k' : String) (v : FieldValue) (h : k' ≠ k) :
    getProp (spreadSet r k v) k' = getProp r k' := by
  by_cases hc : containsKey r k = true
  · simp [spreadSet, hc, getProp_map_replace_ne r k k' v h]
  · have h' : containsKey r k = false := by simpa using hc
    rw [spreadSet, if_neg (by simp [h'])]
    exact getProp_append_single_ne r k k' v h

theorem map_replace_eq_of_not_contains (r : Rec) (k : String) (v : FieldValue)
    (h : containsKey r k = false) :
    r.map (fun p => if p.1 = k then (k, v) else p) = r := by
  induction r with
  | nil => rfl
  | cons p rest ih =>
    simp only [containsKey, List.any_cons, Bool.or_eq_false_iff, beq_eq_false_iff_ne] at h
    simp [h.1, ih (by simpa [containsKey] using h.2)]

theorem map_replace_idem (r : Rec) (k : String) (v : FieldValue) :
    (r.map (fun p => if p.1 = k then (k, v) else p)).map
        (fun p => if p.1 = k then (k, v) else p)
      = r.map (fun p => if p.1 = k then (k, v) else p) := by
  induction r with
  | nil => rfl
  | cons p rest ih =>
    by_cases hp : p.1 = k
    · simp [hp, ih]
    · simp [hp, ih]

theorem containsKey_spreadSet_self (r : Rec) (k : String) (v : FieldValue) :
    containsKey (spreadSet r k v) k = true :=
  (containsKey_iff _ k).mpr ((mem_objectKeys_spreadSet r k k v).mpr (Or.inr rfl))

theorem spreadSet_idem (r : Rec) (k : String) (v : FieldValue) :
    spreadSet (spreadSet r k v) k v = spreadSet r k v := by
  have hc := containsKey_spreadSet_self r k v
  by_cases h : containsKey r k = true
  · have h1 : spreadSet r k v = r.map (fun p => if p.1 = k then (k, v) else p) := by
      simp [spreadSet, h]
    rw [h1]
    have h2 : containsKey (r.map (fun p => if p.1 = k then (k, v) else p)) k = true := by
      rw [← h1]; exact hc
    simp [spreadSet, h2, map_replace_idem r k v]
  · have h' : containsKey r k = false := by simpa using h
    have h1 : spreadSet r k v = r ++ [(k, v)] := by simp [spreadSet, h']
    rw [h1]
    have h2 : containsKey (r ++ [(k, v)]) k = true := by rw [← h1]; exact hc
    simp [spreadSet, h2, map_replace_eq_of_not_contains r k v h']

/-! ### Lemmas about blank-record derivation -/

theorem mem_spreadSet_none (acc : Rec) (k : String) (p : String × FieldValue)
    (hacc : ∀ q ∈ acc, q.2 = none) (hp : p ∈ spreadSet acc k none) :
    p.2 = none := by
  by_cases h : containsKey acc k = true
  · rw [spreadSet, if_pos h] at hp
    rcases List.mem_map.mp hp with ⟨q, hq, rfl⟩
    by_cases hq1 : q.1 = k
    · simp [hq1]
    · simpa [hq1] using hacc q hq
  · rw [spreadSet, if_neg (by simpa using h)] at hp
    rcases List.mem_append.mp hp with hp | hp
    · exact hacc p hp
    · simp only [List.mem_singleton] at hp
      simp [hp]

theorem foldl_spreadSet_none_values (fields : List FieldDescriptor) (acc : Rec)
    (hacc : ∀ q ∈ acc, q.2 = none) :
    ∀ p ∈ fields.foldl (fun acc field => spreadSet acc field.key none) acc, p.2 = none := by
  induction fields generalizing acc with
  | nil => simpa using hacc
  | cons f rest ih =>
    simp only [List.foldl_cons]
    exact ih (spreadSet acc f.key none) (fun q hq => mem_spreadSet_none acc f.key q hacc hq)

theorem mem_objectKeys_foldl_spreadSet (fields : List FieldDescriptor) (acc : Rec) (k : String) :
    k ∈ objectKeys (fields.foldl (fun acc field => spreadSet acc field.key none) acc)
      ↔ k ∈ objectKeys acc ∨ k ∈ fields.map FieldDescriptor.key := by
  induction fields generalizing acc with
  | nil => simp
  | cons f rest ih =>
    simp only [List.foldl_cons, List.map_cons, List.mem_cons]
    rw [ih, mem_objectKeys_spreadSet]
    tauto

theorem initialDraftState_eq_createStateFromKeys (fields : List FieldDescriptor) :
    initialDraftState fields = createStateFromKeys (fields.map FieldDescriptor.key) := by
  simp [initialDraftState, createStateFromKeys, fromEntries, List.foldl_map]

theorem getProp_eq_some_none (r : Rec) (k : String) (hk : k ∈ objectKeys r)
    (hv : ∀ p ∈ r, p.2 = none) : getProp r k = some none := by
  induction r with
  | nil => simp [objectKeys] at hk
  | cons p rest ih =>
    by_cases h : p.1 = k
    · simpa [getProp, h] using hv p (List.mem_cons_self p rest)
    · have hk' : k ∈ objectKeys rest := by
        simp only [objectKeys, List.map_cons, List.mem_cons] at hk
        rcases hk with hk | hk
        · exact absurd hk.symm h
        · exact hk
      simp [getProp, h, ih hk' (fun q hq => hv q (List.mem_cons_of_mem p hq))]

/-! ### Lemmas about `camelToKebab` -/

theorem toLowerCaseChar_not_upper (c : Nat) : isUpperAZ (toLowerCaseChar c) = false := by
  unfold toLowerCaseChar
  by_cases h : isUpperAZ c = true
  · rw [if_pos h]
    simp only [isUpperAZ, Bool.and_eq_true, decide_eq_true_eq] at h
    simp only [isUpperAZ, Bool.and_eq_false_iff, decide_eq_false_iff_not]
    right
    omega
  · rw [if_neg h]
    simpa using h

theorem camelToKebab_mem_not_upper (s : JSString) :
    ∀ c ∈ camelToKebab s, isUpperAZ c = false := by
  intro c hc
  unfold camelToKebab at hc
  rcases List.mem_map.mp hc with ⟨a, _, rfl⟩
  exact toLowerCaseChar_not_upper a

theorem kebabReplace_eq_of_no_upper :
    ∀ l : JSString, (∀ c ∈ l, isUpperAZ c = false) → kebabReplace l = l
  | [], _ => rfl
  | [_], _ => rfl
  | c1 :: c2 :: rest, h => by
    have h2 : isUpperAZ c2 = false := h c2 (by simp)
    rw [kebabReplace, if_neg (by simp [h2])]
    rw [kebabReplace_eq_of_no_upper (c2 :: rest)
      (fun c hc => h c (List.mem_cons_of_mem c1 hc))]

theorem map_toLowerCaseChar_eq_of_no_upper (l : JSString)
    (h : ∀ c ∈ l, isUpperAZ c = false) :
    l.map toLowerCaseChar = l := by
  induction l with
  | nil => rfl
  | cons a t ih =>
    have ha : isUpperAZ a = false := h a (List.mem_cons_self a t)
    simp only [List.map_cons]
    rw [ih (fun c hc => h c (List.mem_cons_of_mem a hc))]
    unfold toLowerCaseChar
    rw [if_neg (by simp [ha])]

/-! ### Lemmas about the CV collection -/

theorem runOps_practical_extends (ops : List CVOp) (s : CVData) :
    ∃ tail, (runOps ops s).practicalExperience = s.practicalExperience ++ tail := by
  induction ops generalizing s with
  | nil => exact ⟨[], by simp [runOps]⟩
  | cons op rest ih =>
    have hstep : runOps (op :: rest) s = runOps rest (applyOp op s) := rfl
    rcases ih (applyOp op s) with ⟨t, ht⟩
    cases op with
    | addGeneral fieldData =>
      exact ⟨t, by simpa [applyOp, addGeneralInformation] using ht⟩
    | addPractical fieldData =>
      refine ⟨fieldData :: t, ?_⟩
      rw [hstep, ht]
      simp [applyOp, addPracticalExperience]
    | addEducational fieldData =>
      exact ⟨t, by simpa [applyOp, addEducationalExperience] using ht⟩

theorem runOps_educational_extends (ops : List CVOp) (s : CVData) :
    ∃ tail, (runOps ops s).educationalExperience = s.educationalExperience ++ tail := by
  induction ops generalizing s with
  | nil => exact ⟨[], by simp [runOps]⟩
  | cons op rest ih =>
    have hstep : runOps (op :: rest) s = runOps rest (applyOp op s) := rfl
    rcases ih (applyOp op s) with ⟨t, ht⟩
    cases op with
    | addGeneral fieldData =>
      exact ⟨t, by simpa [applyOp, addGeneralInformation] using ht⟩
    | addPractical fieldData =>
      exact ⟨t, by simpa [applyOp, addPracticalExperience] using ht⟩
    | addEducational fieldData =>
      refine ⟨fieldData :: t, ?_⟩
      rw [hstep, ht]
      simp [applyOp, addEducationalExperience]

/-! ### The claims -/

/-- C1, counterexample: the claim that an update under a key not among the
schema's keys fails with `UnknownFieldKeyError` and leaves the record
unchanged is false of the runtime code. The update transition of
`createFieldUpdater` / `handleInputChange` is a bare object spread with no
runtime key check: applied to the blank general-information record with the
out-of-schema key `"nonExistentKey"`, it returns normally, silently applies
the update, and widens the record's key set by that key. -/
theorem updateField_unknown_key_widens_cex :
    "nonExistentKey" ∉ GENERAL_INFORMATION.map FieldDescriptor.key ∧
    updateField (initialDraftState GENERAL_INFORMATION) "nonExistentKey" "x"
      = initialDraftState GENERAL_INFORMATION ++ [("nonExistentKey", some "x")] ∧
    objectKeys (updateField (initialDraftState GENERAL_INFORMATION) "nonExistentKey" "x")
      = ["name", "email", "phoneNumber", "nonExistentKey"] ∧
    getProp (updateField (initialDraftState GENERAL_INFORMATION) "nonExistentKey" "x")
      "nonExistentKey" = some (some "x") := by
  exact ⟨by decide, by decide, by decide, by decide⟩

/-- C1, amended: unknown-key updates are excluded statically, not by a
runtime error. The update function is typed `key : keyof T` and every
update event `FormSection` can emit carries a rendered input's `name`,
which is always one of the schema's keys (`name={field.key}`); for any
record whose key set is the schema's keys and any such name, the update
preserves the key set exactly — it never widens the record beyond the
schema's keys. No runtime `UnknownFieldKeyError` exists. -/
theorem updateField_rendered_names_preserve_keys (fields : List FieldDescriptor) (r : Rec)
    (eventName : String) (v : String)
    (hr : objectKeys r = renderedInputNames fields)
    (hname : eventName ∈ renderedInputNames fields) :
    objectKeys (handleInputChange r eventName v) = renderedInputNames fields := by
  have hmem : eventName ∈ objectKeys r := by rw [hr]; exact hname
  rw [show handleInputChange r eventName v = spreadSet r eventName (some v) from rfl]
  rw [objectKeys_spreadSet_of_mem r eventName (some v) ((containsKey_iff r eventName).mpr hmem)]
  exact hr

/-- C1, witness for the amended theorem at the general-information schema,
its blank record and the rendered input name `"email"`. -/
theorem updateField_rendered_names_preserve_keys_witness :
    objectKeys (handleInputChange (initialDraftState GENERAL_INFORMATION) "email" "a@b.com")
      = renderedInputNames GENERAL_INFORMATION :=
  updateField_rendered_names_preserve_keys GENERAL_INFORMATION
    (initialDraftState GENERAL_INFORMATION) "email" "a@b.com" (by decide) (by decide)

/-- C2: the blank record derived from a schema (the `FormSection`
`draftState` initializer, equal to `createStateFromKeys` over the schema's
keys) has key set exactly the schema's `key` values, and every value is
the unset marker `null` — in particular never the empty string. -/
theorem blankRecord_keys_and_unset (fields : List FieldDescriptor) :
    (∀ k, k ∈ objectKeys (initialDraftState fields) ↔ k ∈ fields.map FieldDescriptor.key) ∧
    (∀ p ∈ initialDraftState fields, p.2 = none) ∧
    (∀ p ∈ initialDraftState fields, p.2 ≠ some "") ∧
    initialDraftState fields = createStateFromKeys (fields.map FieldDescriptor.key) := by
  have hvals := foldl_spreadSet_none_values fields [] (by simp)
  refine ⟨fun k => ?_, hvals, fun p hp => by simp [hvals p hp],
    initialDraftState_eq_createStateFromKeys fields⟩
  have h := mem_objectKeys_foldl_spreadSet fields [] k
  simpa [objectKeys, initialDraftState] using h

/-- C2, witness at the general-information schema: the entry for `"name"`
is present with value `null`, not the empty string. -/
theorem blankRecord_keys_and_unset_witness :
    ("name", (none : FieldValue)) ∈ initialDraftState GENERAL_INFORMATION ∧
    ("name", (none : FieldValue)).2 = none ∧
    ("name", (none : FieldValue)).2 ≠ some "" ∧
    ("name" ∈ objectKeys (initialDraftState GENERAL_INFORMATION) ↔
      "name" ∈ GENERAL_INFORMATION.map FieldDescriptor.key) :=
  ⟨by decide,
   (blankRecord_keys_and_unset GENERAL_INFORMATION).2.1 _ (by decide),
   (blankRecord_keys_and_unset GENERAL_INFORMATION).2.2.1 _ (by decide),
   (blankRecord_keys_and_unset GENERAL_INFORMATION).1 "name"⟩

/-- C3: for a key `k` of the record, the update transition of
`createFieldUpdater` returns a record that maps `k` to `v`, agrees with
the input on every other key, and has the same key set; the operation is a
pure function of its input (the embedding is functional: the input record
is a value and is never mutated — callers re-bind to the result). -/
theorem updateField_point_update_frame (r : Rec) (k : String) (v : String)
    (h : k ∈ objectKeys r) :
    getProp (updateField r k v) k = some (some v) ∧
    (∀ k', k' ≠ k → getProp (updateField r k v) k' = getProp r k') ∧
    objectKeys (updateField r k v) = objectKeys r :=
  ⟨getProp_spreadSet_self r k (some v),
   fun k' hk' => getProp_spreadSet_ne r k k' (some v) hk',
   objectKeys_spreadSet_of_mem r k (some v) ((containsKey_iff r k).mpr h)⟩

/-- C3, witness: scenario A of the spec — updating `"email"` to
`"a@b.com"` on the blank general-information record sets that field and
leaves `"name"` untouched. -/
theorem updateField_point_update_frame_witness :
    getProp (updateField (initialDraftState GENERAL_INFORMATION) "email" "a@b.com") "email"
      = some (some "a@b.com") ∧
    getProp (updateField (initialDraftState GENERAL_INFORMATION) "email" "a@b.com") "name"
      = getProp (initialDraftState GENERAL_INFORMATION) "name" ∧
    objectKeys (updateField (initialDraftState GENERAL_INFORMATION) "email" "a@b.com")
      = objectKeys (initialDraftState GENERAL_INFORMATION) :=
  ⟨(updateField_point_update_frame (initialDraftState GENERAL_INFORMATION)
      "email" "a@b.com" (by decide)).1,
   (updateField_point_update_frame (initialDraftState GENERAL_INFORMATION)
      "email" "a@b.com" (by decide)).2.1 "name" (by decide),
   (updateField_point_update_frame (initialDraftState GENERAL_INFORMATION)
      "email" "a@b.com" (by decide)).2.2⟩

/-- C4, counterexample: the claim that submission substitutes unset with
the empty string is false of the code. `handleButtonClick` forwards the
draft to `handleAddToCV` unchanged, so submitting the blank
general-information draft stores a record whose value at `"name"` is still
the unset marker `null`, not the empty string; the spec-worded
`toSubmittedRecord` disagrees with what the code stores at this input. -/
theorem submission_blank_not_empty_cex :
    (handleButtonClick addGeneralInformation (initialDraftState GENERAL_INFORMATION)
        initialCvData).generalInformation = some (initialDraftState GENERAL_INFORMATION) ∧
    getProp (initialDraftState GENERAL_INFORMATION) "name" = some none ∧
    some (none : FieldValue) ≠ some (some "") ∧
    toSubmittedRecordSpec (initialDraftState GENERAL_INFORMATION)
      ≠ initialDraftState GENERAL_INFORMATION :=
  ⟨rfl, by decide, by decide, by decide⟩

/-- C4, amended: submission passes the draft through unchanged — it keeps
every key of the draft and preserves unset values rather than substituting
the empty string; submitting the blank record of a schema stores a record
with every value unset. The unset-to-empty-string substitution happens
only at render time, where every schema field of the blank record displays
as the empty string (`value={draftState[field.key] ?? ''}`). -/
theorem submission_preserves_draft_unset (fields : List FieldDescriptor) (s : CVData) :
    (handleButtonClick addGeneralInformation (initialDraftState fields) s).generalInformation
      = some (initialDraftState fields) ∧
    (∀ p ∈ initialDraftState fields, p.2 = none) ∧
    (∀ key ∈ renderedInputNames fields, displayedValue (initialDraftState fields) key = "") := by
  have hvals := foldl_spreadSet_none_values fields [] (by simp)
  refine ⟨rfl, hvals, fun key hkey => ?_⟩
  have hk : key ∈ objectKeys (initialDraftState fields) :=
    (mem_objectKeys_foldl_spreadSet fields [] key).mpr (Or.inr hkey)
  have hg : getProp (initialDraftState fields) key = some none :=
    getProp_eq_some_none (initialDraftState fields) key hk hvals
  simp [displayedValue, hg]

/-- C4, witness for the amended theorem at the general-information schema:
the stored record is the blank draft itself and its `"name"` field
displays as the empty string. -/
theorem submission_preserves_draft_unset_witness :
    (handleButtonClick addGeneralInformation (initialDraftState GENERAL_INFORMATION)
        initialCvData).generalInformation = some (initialDraftState GENERAL_INFORMATION) ∧
    displayedValue (initialDraftState GENERAL_INFORMATION) "name" = "" :=
  ⟨(submission_preserves_draft_unset GENERAL_INFORMATION initialCvData).1,
   (submission_preserves_draft_unset GENERAL_INFORMATION initialCvData).2.2 "name" (by decide)⟩

/-- C5: the update transition of `createFieldUpdater` is idempotent —
applying the same `(k, v)` update twice in a row yields the same record as
applying it once (proved for every record and key, in particular for keys
of the record's schema). -/
theorem updateField_same_update_idem (r : Rec) (k : String) (v : String) :
    updateField (updateField r k v) k v = updateField r k v :=
  spreadSet_idem r k (some v)

/-- C6: the CV collection starts empty (`generalInformation: null` and
both experience lists empty), every single operation either replaces the
general-information record or appends one record to the end of exactly one
of the two lists, and under every sequence of operations each list equals
the original list extended by a tail — entries are never removed,
reordered, or lost. -/
theorem cvData_append_only (ops : List CVOp) (s : CVData) :
    initialCvData = { generalInformation := none,
                      practicalExperience := [],
                      educationalExperience := [] } ∧
    (∀ op : CVOp,
      (∃ fieldData, applyOp op s = { s with generalInformation := some fieldData }) ∨
      (∃ fieldData, applyOp op s
        = { s with practicalExperience := s.practicalExperience ++ [fieldData] }) ∨
      (∃ fieldData, applyOp op s
        = { s with educationalExperience := s.educationalExperience ++ [fieldData] })) ∧
    (∃ tail, (runOps ops s).practicalExperience = s.practicalExperience ++ tail) ∧
    (∃ tail, (runOps ops s).educationalExperience = s.educationalExperience ++ tail) := by
  refine ⟨rfl, fun op => ?_, runOps_practical_extends ops s, runOps_educational_extends ops s⟩
  cases op with
  | addGeneral fieldData => exact Or.inl ⟨fieldData, rfl⟩
  | addPractical fieldData => exact Or.inr (Or.inl ⟨fieldData, rfl⟩)
  | addEducational fieldData => exact Or.inr (Or.inr ⟨fieldData, rfl⟩)

/-- C7: `getSchema` returns the registered schema for each of the three
registered section names and fails with `UnknownSectionError` for every
other name. (The registry itself is the static constants of
`src/data/formData.ts`; the lookup function is modelled from the spec, as
the source accesses the constants by direct import.) -/
theorem getSchema_registered_and_unknown (sectionName : String) :
    getSchema "general" = Except.ok GENERAL_INFORMATION ∧
    getSchema "education" = Except.ok EDUCATIONAL_EXPERIENCE ∧
    getSchema "experience" = Except.ok PRACTICAL_EXPERIENCE ∧
    (sectionName ∉ (["general", "education", "experience"] : List String) →
      getSchema sectionName = Except.error RegistryError.unknownSection) := by
  refine ⟨rfl, rfl, rfl, fun h => ?_⟩
  simp only [List.mem_cons, List.not_mem_nil, or_false, not_or] at h
  obtain ⟨h1, h2, h3⟩ := h
  simp [getSchema, h1, h2, h3]

/-- C7, witness at the unregistered section name `"nonexistent"`. -/
theorem getSchema_registered_and_unknown_witness :
    getSchema "nonexistent" = Except.error RegistryError.unknownSection :=
  (getSchema_registered_and_unknown "nonexistent").2.2.2 (by decide)

/-- C8: each submission handler of `App` modifies only its own section of
`cvData`: `addEducationalExperience` leaves the general-information record
and the practical list unchanged, `addPracticalExperience` leaves the
general-information record and the educational list unchanged, and
`addGeneralInformation` leaves both experience lists unchanged. -/
theorem add_operations_frame (fieldData : Rec) (s : CVData) :
    (addEducationalExperience fieldData s).generalInformation = s.generalInformation ∧
    (addEducationalExperience fieldData s).practicalExperience = s.practicalExperience ∧
    (addPracticalExperience fieldData s).generalInformation = s.generalInformation ∧
    (addPracticalExperience fieldData s).educationalExperience = s.educationalExperience ∧
    (addGeneralInformation fieldData s).practicalExperience = s.practicalExperience ∧
    (addGeneralInformation fieldData s).educationalExperience = s.educationalExperience :=
  ⟨rfl, rfl, rfl, rfl, rfl, rfl⟩

/-- C9: `camelToKebab` produces no uppercase letter for any input, is
idempotent, and on camelCase field keys inserts a hyphen before each
interior capital that follows a lowercase letter or digit and lowercases:
`"phoneNumber"` becomes `"phone-number"` and `"fieldOfStudy"` becomes
`"field-of-study"`. -/
theorem camelToKebab_lower_idem_example :
    (∀ s : JSString, ∀ c ∈ camelToKebab s, isUpperAZ c = false) ∧
    (∀ s : JSString, camelToKebab (camelToKebab s) = camelToKebab s) ∧
    camelToKebab (jsString "phoneNumber") = jsString "phone-number" ∧
    camelToKebab (jsString "fieldOfStudy") = jsString "field-of-study" := by
  refine ⟨camelToKebab_mem_not_upper, fun s => ?_, by decide, by decide⟩
  show (kebabReplace (camelToKebab s)).map toLowerCaseChar = camelToKebab s
  rw [kebabReplace_eq_of_no_upper (camelToKebab s) (camelToKebab_mem_not_upper s)]
  exact map_toLowerCaseChar_eq_of_no_upper (camelToKebab s) (camelToKebab_mem_not_upper s)

/-- C9, witness: the output for `"phoneNumber"` contains `p` (112) and it
is not uppercase; the double application agrees with the single one. -/
theorem camelToKebab_lower_idem_example_witness :
    isUpperAZ 112 = false ∧
    camelToKebab (camelToKebab (jsString "phoneNumber"))
      = camelToKebab (jsString "phoneNumber") :=
  ⟨camelToKebab_lower_idem_example.1 (jsString "phoneNumber") 112 (by decide),
   camelToKebab_lower_idem_example.2.1 (jsString "phoneNumber")⟩

/-- C10: the side-panel toggle negates the boolean open state on every
click, so two clicks restore the original state, and the aside's visual
state always reflects the boolean: the `closed` class is present exactly
when the panel is not open. -/
theorem toggle_involution_aside_class (b : Bool) :
    toggleOnClick (toggleOnClick b) = b ∧
    toggleOnClick b = !b ∧
    (asideClassName b = "closed" ↔ b = false) ∧
    asideClassName true = "" := by
  cases b <;> exact ⟨rfl, rfl, by decide, rfl⟩

end CVApp
